import Mathlib

/-!
Shallow embedding of the batch orchestration, response normalization and
fuzzy catalog search of the pgs-matcher repository, together with proofs
of the specified properties.

Source correspondence:
* `chunkArray`                        — `src/lib/excel-utils.ts`, `chunkArray`
* `processBatch`, `processData`       — `src/unnamed/part_000`, `processData`
* `Json`, `locateMatches`, `probeKeys`,
  `normalizeMatch`, `reconcileLength`,
  `matchEmissionFactorsNormalize`    — `src/actions/openai-actions.ts`,
                                        response-parsing section of
                                        `matchEmissionFactorsAction`
* `matchEmissionFactorsParallelAction` — `src/implementation-plan.md`,
                                        `matchEmissionFactorsParallelAction`
* `scoreStep`, `scoreFactor`,
  `filteredEmissionFactors`           — `src/app/emission-matcher/_components/`
                                        `emission-factor-search.tsx`
-/

/-! ## JSON values

A model of the values produced by `JSON.parse`.  Numbers are modelled as
integers (no claim depends on fractional values); object fields are kept in
insertion order, as `Object.keys` enumerates them for parsed objects. -/

inductive Json : Type where
  | null : Json
  | bool (b : Bool) : Json
  | num (n : Int) : Json
  | str (s : String) : Json
  | arr (elems : List Json) : Json
  | obj (fields : List (String × Json)) : Json
deriving Repr

mutual

/-- Structural boolean equality on JSON values. -/
def Json.beq : Json → Json → Bool
  | .null, .null => true
  | .bool a, .bool c => a == c
  | .num a, .num c => a == c
  | .str a, .str c => a == c
  | .arr xs, .arr ys => Json.beqList xs ys
  | .obj fs, .obj gs => Json.beqFields fs gs
  | _, _ => false

def Json.beqList : List Json → List Json → Bool
  | [], [] => true
  | x :: xs, y :: ys => Json.beq x y && Json.beqList xs ys
  | _, _ => false

def Json.beqFields : List (String × Json) → List (String × Json) → Bool
  | [], [] => true
  | kv :: fs, kw :: gs => kv.1 == kw.1 && Json.beq kv.2 kw.2 && Json.beqFields fs gs
  | _, _ => false

end

mutual

theorem Json.beq_iff : ∀ (a b : Json), (Json.beq a b = true) ↔ a = b
  | .null, .null => by simp [Json.beq]
  | .null, .bool _ | .null, .num _ | .null, .str _ | .null, .arr _ | .null, .obj _
  | .bool _, .null | .bool _, .num _ | .bool _, .str _ | .bool _, .arr _ | .bool _, .obj _
  | .num _, .null | .num _, .bool _ | .num _, .str _ | .num _, .arr _ | .num _, .obj _
  | .str _, .null | .str _, .bool _ | .str _, .num _ | .str _, .arr _ | .str _, .obj _
  | .arr _, .null | .arr _, .bool _ | .arr _, .num _ | .arr _, .str _ | .arr _, .obj _
  | .obj _, .null | .obj _, .bool _ | .obj _, .num _ | .obj _, .str _ | .obj _, .arr _ =>
      by simp [Json.beq]
  | .bool a, .bool c => by simp [Json.beq]
  | .num a, .num c => by simp [Json.beq]
  | .str a, .str c => by simp [Json.beq]
  | .arr xs, .arr ys => by simp [Json.beq, Json.beqList_iff xs ys]
  | .obj fs, .obj gs => by simp [Json.beq, Json.beqFields_iff fs gs]

theorem Json.beqList_iff : ∀ (xs ys : List Json), (Json.beqList xs ys = true) ↔ xs = ys
  | [], [] => by simp [Json.beqList]
  | [], _ :: _ => by simp [Json.beqList]
  | _ :: _, [] => by simp [Json.beqList]
  | x :: xs, y :: ys => by
      simp [Json.beqList, Json.beq_iff x y, Json.beqList_iff xs ys]

theorem Json.beqFields_iff :
    ∀ (fs gs : List (String × Json)), (Json.beqFields fs gs = true) ↔ fs = gs
  | [], [] => by simp [Json.beqFields]
  | [], _ :: _ => by simp [Json.beqFields]
  | _ :: _, [] => by simp [Json.beqFields]
  | kv :: fs, kw :: gs => by
      have h2 := Json.beq_iff kv.2 kw.2
      have h3 := Json.beqFields_iff fs gs
      constructor
      · intro h
        simp only [Json.beqFields, Bool.and_eq_true, beq_iff_eq] at h
        obtain ⟨⟨h1, hv⟩, hrest⟩ := h
        have : kv = kw := Prod.ext h1 (h2.mp hv)
        rw [this, h3.mp hrest]
      · intro h
        obtain ⟨rfl, rfl⟩ := List.cons.inj h
        simp [Json.beqFields, h2, h3]

end

instance : DecidableEq Json := fun a b =>
  decidable_of_iff (Json.beq a b = true) (Json.beq_iff a b)

/-- JavaScript truthiness of a JSON value: `null`, `false`, `0` and `""` are
falsy; every array and object is truthy. -/
def Json.truthy : Json → Bool
  | .null => false
  | .bool b => b
  | .num n => n != 0
  | .str s => s != ""
  | .arr _ => true
  | .obj _ => true

/-- `typeof v === "object"` for a value coming out of `JSON.parse`:
true for `null`, arrays and objects, false for numbers, strings, booleans. -/
def Json.isObjectType : Json → Bool
  | .null => true
  | .arr _ => true
  | .obj _ => true
  | _ => false

/-- Property access `v[key]` on a JSON value: defined on objects, `undefined`
(modelled as `none`) otherwise. -/
def Json.getField? : Json → String → Option Json
  | .obj fields, key => (fields.find? (fun kv => kv.1 == key)).map (·.2)
  | _, _ => none

/-- `Array.isArray` refined into the array's elements. -/
def Json.asArray? : Json → Option (List Json)
  | .arr elems => some elems
  | _ => none

/-- Is this JSON value a non-empty string?  (What the spec asserts of every
normalized label field.) -/
def Json.isNonemptyString : Json → Bool
  | .str s => s != ""
  | _ => false

/-! ## Response normalizer

Embedding of the response-parsing section of `matchEmissionFactorsAction`
(`src/actions/openai-actions.ts`, lines 104–188).  The `JSON.parse` call is
modelled by an `Option Json` input: `none` stands for raw text that throws
on parsing, `some p` for text parsing to the value `p`. -/

/-- The canonical two-field label produced by normalization.  The fields are
kept as JSON values because the source assigns the probed values unchanged. -/
structure NormalizedMatch where
  EmissionFactorCode : Json
  EmissionFactorName : Json
deriving Repr, DecidableEq

/-- Locating the label array (lines 116–143): the field `matches` if it is an
array, else the field `results` if it is an array, else the parsed value
itself if it is an array, else the first object field whose value is a
non-empty array.  A field access such as `parsedResponse.matches &&
Array.isArray(parsedResponse.matches)` succeeds exactly when the field is
present and an array, since every array is truthy. -/
def locateMatches (parsedResponse : Json) : Option (List Json) :=
  match (parsedResponse.getField? "matches").bind Json.asArray? with
  | some ms => some ms
  | none =>
    match (parsedResponse.getField? "results").bind Json.asArray? with
    | some ms => some ms
    | none =>
      match parsedResponse.asArray? with
      | some ms => some ms
      | none =>
        match parsedResponse with
        | .obj fields =>
          match fields.find? (fun kv =>
              match kv.2 with
              | .arr elems => elems.length > 0
              | _ => false) with
          | some kv => kv.2.asArray?
          | none => none
        | _ => none

/-- The chain `matchAny.k1 || matchAny.k2 || matchAny.k3 || fallback`
(lines 174–182): the first key whose value is present and truthy wins;
otherwise the sentinel string. -/
def probeKeys (element : Json) (keys : List String) (fallback : String) : Json :=
  match keys with
  | [] => .str fallback
  | key :: rest =>
    match element.getField? key with
    | some v => if v.truthy then v else probeKeys element rest fallback
    | none => probeKeys element rest fallback

/-- Per-element standardization (lines 169–188). -/
def normalizeMatch (element : Json) : NormalizedMatch :=
  { EmissionFactorCode :=
      probeKeys element ["EmissionFactorCode", "code", "factorCode"] "UNKNOWN"
    EmissionFactorName :=
      probeKeys element ["EmissionFactorName", "name", "factorName"]
        "Unknown emission factor" }

/-- The sentinel object used to right-pad a short matches array (lines 157–160). -/
def missingPlaceholder : Json :=
  .obj [("EmissionFactorCode", .str "MISSING"),
        ("EmissionFactorName", .str "Match not provided")]

/-- Length reconciliation against the expected row count (lines 154–166). -/
def reconcileLength (ms : List Json) (rowCount : Nat) : List Json :=
  if ms.length < rowCount then
    ms ++ List.replicate (rowCount - ms.length) missingPlaceholder
  else if ms.length > rowCount then
    ms.take rowCount
  else
    ms

/-- The whole parse-and-normalize path of `matchEmissionFactorsAction`
(lines 102–202), from the parse outcome of the raw response text and the
batch's row count to either a failure message or the normalized data. -/
def matchEmissionFactorsNormalize (parsed : Option Json) (rowCount : Nat) :
    Except String (List NormalizedMatch) :=
  match parsed with
  | none => .error "Failed to parse the API response"
  | some parsedResponse =>
    if !parsedResponse.truthy || !parsedResponse.isObjectType then
      .error "Failed to parse response: invalid format"
    else
      match locateMatches parsedResponse with
      | none => .error "Failed to find matches in the response"
      | some ms =>
        if ms.length = 0 then
          .error "No matches returned in the response"
        else
          .ok ((reconcileLength ms rowCount).map normalizeMatch)

/-! ## Chunker

Embedding of `chunkArray` (`src/lib/excel-utils.ts`, lines 207–213).  The
source loop `for (let i = 0; i < array.length; i += chunkSize)` pushes
`array.slice(i, i + chunkSize)` each iteration.  With a positive chunk size
the loop performs at most `array.length` iterations, so the recursion is run
on that much fuel; `chunkLoopIndex` below models the raw loop index for the
termination analysis, including non-positive chunk sizes. -/

def chunkArrayGo (chunkSize : Nat) : Nat → List α → List (List α)
  | _, [] => []
  | 0, _ :: _ => []
  | fuel + 1, x :: xs =>
    ((x :: xs).take chunkSize) :: chunkArrayGo chunkSize fuel ((x :: xs).drop chunkSize)

def chunkArray (array : List α) (chunkSize : Nat) : List (List α) :=
  chunkArrayGo chunkSize array.length array

/-- The loop index of `chunkArray` after `k` iterations: `i` starts at `0`
and each iteration executes `i += chunkSize`.  The chunk size is taken as an
integer so that non-positive sizes can be analysed. -/
def chunkLoopIndex (chunkSize : Int) : Nat → Int
  | 0 => 0
  | k + 1 => chunkLoopIndex chunkSize k + chunkSize

/-! ## Sequential dispatch

Embedding of `processData` (`src/unnamed/part_000`, lines 261–322).  Rows
are opaque values of a type `α`; the result of the remote call for batch
index `i` (0-based) is an abstract `ActionState` supplied by the function
`respond`.  A result row `{...row, EmissionFactorCode, EmissionFactorName}`
is modelled as the pair of the original row and the attached label. -/

/-- The canonical string label of the client-side pipeline
(`EmissionFactorMatch` in `src/unnamed/part_003`). -/
structure Label where
  EmissionFactorCode : String
  EmissionFactorName : String
deriving Repr, DecidableEq

/-- The `ActionState<EmissionFactorMatch[]>` envelope returned by the server
action: a success flag, a message, and optional data. -/
structure ActionState where
  isSuccess : Bool
  message : String
  data : Option (List Label)
deriving Repr, DecidableEq

/-- One iteration of the `processData` loop body (lines 286–318): on
`!result.isSuccess || !result.data`, every row of the batch is decorated with
the `"ERROR"` placeholder embedding the failure message; otherwise row
`index` is zipped with `result.data?.[index]`, falling back to a
`"Failed to match"` placeholder when the data array is too short. -/
def processBatch (batchRows : List α) (result : ActionState) : List (α × Label) :=
  if !result.isSuccess || result.data.isNone then
    batchRows.map (fun row =>
      (row, { EmissionFactorCode := "ERROR"
              EmissionFactorName := "Failed: " ++ result.message }))
  else
    batchRows.mapIdx (fun index row =>
      (row, ((result.data.getD [])[index]?).getD
        { EmissionFactorCode := "ERROR", EmissionFactorName := "Failed to match" }))

/-- The `for (let i = 0; i < batches.length; i++)` accumulation of
`processData`, with `i` the 0-based batch index. -/
def processLoop (respond : Nat → ActionState) : Nat → List (List α) → List (α × Label)
  | _, [] => []
  | i, batch :: rest => processBatch batch (respond i) ++ processLoop respond (i + 1) rest

/-- `processData` (lines 261–322): chunk the rows with the default batch size
20 and fold every batch's outcome into the result list. -/
def processData (rows : List α) (respond : Nat → ActionState) : List (α × Label) :=
  processLoop respond 0 (chunkArray rows 20)

/-! ## Parallel dispatch

Embedding of `matchEmissionFactorsParallelAction`
(`src/implementation-plan.md`, lines 520–586).  The inline chunking loop is
the same loop as `chunkArray`.  `Promise.all` returns the batch outcomes in
batch-index order, modelled by evaluating `respond` on `0, …, N-1`. -/

def matchEmissionFactorsParallelAction (rows : List α) (batchSize : Nat)
    (respond : Nat → ActionState) : ActionState :=
  let batches := chunkArray rows batchSize
  let batchResults := (List.range batches.length).map respond
  let failedBatches := batchResults.filter (fun r => !r.isSuccess)
  if failedBatches.length > 0 then
    let errorMessages := String.intercalate "; " (failedBatches.map (·.message))
    { isSuccess := false
      message := "Failed to process " ++ toString failedBatches.length
        ++ " batch(es): " ++ errorMessages
      data := none }
  else
    let allMatches := batchResults.foldl (fun acc r => acc ++ r.data.getD []) []
    { isSuccess := true
      message := "Successfully processed " ++ toString batches.length
        ++ " batches with " ++ toString allMatches.length ++ " matches"
      data := some allMatches }

/-! ## Fuzzy catalog search

Embedding of the `filteredEmissionFactors` memo
(`src/app/emission-matcher/_components/emission-factor-search.tsx`,
lines 40–203).  Text is modelled as lists of characters so that
`includes` / `startsWith` / the `split(/\s+/)` regex split have direct,
provable counterparts.  The `name` field is optional because the source
explicitly guards against a missing name (`factor.name ? … : ""`). -/

/-- A catalog entry `{ code, name }`. -/
structure EFactor where
  code : List Char
  name : Option (List Char)
deriving Repr, DecidableEq

/-- Whitespace, as matched by the `\s` character class for the characters
that can occur here. -/
def isWsChar (c : Char) : Bool :=
  c = ' ' || c = '\t' || c = '\n' || c = '\r'

/-- `s.split(/\s+/)`: split at each maximal whitespace run; a leading or
trailing run produces an empty piece, as in JavaScript. -/
def splitWsGo (acc : List Char) : List Char → List (List Char)
  | [] => [acc.reverse]
  | c :: cs =>
    if isWsChar c then acc.reverse :: splitWsGo [] (cs.dropWhile isWsChar)
    else splitWsGo (c :: acc) cs
termination_by cs => cs.length
decreasing_by
  · exact Nat.lt_succ_of_le (List.dropWhile_sublist _).length_le
  · exact Nat.lt_succ_self _

def splitWs (s : List Char) : List (List Char) :=
  splitWsGo [] s

/-- `s.trim()` restricted to the whitespace characters modelled here. -/
def trimWs (s : List Char) : List Char :=
  ((s.dropWhile isWsChar).reverse.dropWhile isWsChar).reverse

/-- The query terms (lines 51–54): lower-case, split on whitespace, keep the
non-empty pieces. -/
def queryTerms (searchQuery : List Char) : List (List Char) :=
  (splitWs (searchQuery.map Char.toLower)).filter (fun term => !term.isEmpty)

/-- One iteration of the `for (const term of queryTerms)` loop
(lines 82–139) on the running `(score, matchedTerms)` pair: the code block
and the name block are two independent `if`s, each adding its own points,
and `termMatched` is set by either. -/
def scoreStep (codeText nameText : List Char) (nameWords : List (List Char))
    (st : Nat × Nat) (term : List Char) : Nat × Nat :=
  let score := st.1
  let termMatched := false
  let (score, termMatched) :=
    if term <:+: codeText then
      (score + (if codeText = term then 100
                else if term <+: codeText then 75
                else 50), true)
    else (score, termMatched)
  let (score, termMatched) :=
    if term <:+: nameText then
      (score + (if term <+: nameText then 25 else 15), true)
    else
      match nameWords.find? (fun word => decide (term <+: word)) with
      | some _ => (score + 10, true)
      | none => (score, termMatched)
  (score, st.2 + (if termMatched then 1 else 0))

/-- Scoring one catalog entry against the query terms (lines 59–153):
an absent or empty name short-circuits to score 0 / no match; otherwise the
per-term loop runs, `matches` is `matchedTerms > 0`, and 30 bonus points are
added when every term matched. -/
def scoreFactor (terms : List (List Char)) (factor : EFactor) : Nat × Bool :=
  let codeText := factor.code.map Char.toLower
  match factor.name with
  | none => (0, false)
  | some name =>
    if name.isEmpty then (0, false)
    else
      let nameText := name.map Char.toLower
      let nameWords := splitWs nameText
      let folded := terms.foldl (scoreStep codeText nameText nameWords) (0, 0)
      let score := folded.1
      let matchedTerms := folded.2
      let matches? := decide (matchedTerms > 0)
      let score := if matches? && matchedTerms = terms.length then score + 30 else score
      (score, matches?)

/-- The full memo (lines 40–203): a blank query returns the catalog
unchanged; otherwise score every entry, keep the matching ones, sort by
descending score (JavaScript `Array.prototype.sort` is stable) and strip the
scores. -/
def filteredEmissionFactors (searchQuery : List Char)
    (availableEmissionFactors : List EFactor) : List EFactor :=
  if (trimWs searchQuery).isEmpty then availableEmissionFactors
  else
    let terms := queryTerms searchQuery
    let results := availableEmissionFactors.map (fun factor =>
      (factor, scoreFactor terms factor))
    ((results.filter (fun r => r.2.2)).mergeSort
        (fun a b => b.2.1 ≤ a.2.1)).map (·.1)

/-! ## Chunker lemmas -/

/-- With a positive chunk size, any fuel of at least `l.length` computes the
same chunks. -/
theorem chunkArrayGo_fuel {α : Type _} (b : Nat) (hb : 1 ≤ b) :
    ∀ (fuel : Nat) (l : List α), l.length ≤ fuel →
      chunkArrayGo b fuel l = chunkArrayGo b l.length l := by
  intro fuel
  induction fuel using Nat.strong_induction_on with
  | _ fuel ih =>
    intro l hl
    match fuel, l with
    | _, [] => cases hl <;> rfl
    | 0, x :: xs => simp at hl
    | fuel + 1, x :: xs =>
      have hl' : xs.length ≤ fuel := by
        simp only [List.length_cons] at hl
        omega
      have hdrop : ((x :: xs).drop b).length ≤ xs.length := by
        simp only [List.length_drop, List.length_cons]
        omega
      have h1 : chunkArrayGo b fuel ((x :: xs).drop b)
          = chunkArrayGo b ((x :: xs).drop b).length ((x :: xs).drop b) :=
        ih fuel (Nat.lt_succ_self _) _ (le_trans hdrop hl')
      have h2 : chunkArrayGo b xs.length ((x :: xs).drop b)
          = chunkArrayGo b ((x :: xs).drop b).length ((x :: xs).drop b) :=
        ih xs.length (Nat.lt_succ_of_le hl') _ hdrop
      simp only [chunkArrayGo, List.length_cons]
      rw [h1, h2]

theorem chunkArray_nil {α : Type _} (b : Nat) : chunkArray ([] : List α) b = [] := rfl

/-- The defining step of `chunkArray` on a non-empty list and positive size. -/
theorem chunkArray_cons {α : Type _} (b : Nat) (hb : 1 ≤ b) (l : List α) (hl : l ≠ []) :
    chunkArray l b = l.take b :: chunkArray (l.drop b) b := by
  match l, hl with
  | x :: xs, _ =>
    show chunkArrayGo b (x :: xs).length (x :: xs) = _
    simp only [List.length_cons, chunkArrayGo]
    rw [chunkArrayGo_fuel b hb xs.length ((x :: xs).drop b)
      (by simp only [List.length_drop, List.length_cons]; omega)]
    rfl

/-- Concatenating the chunks reproduces the input. -/
theorem chunkArray_flatten {α : Type _} (b : Nat) (hb : 1 ≤ b) (l : List α) :
    (chunkArray l b).flatten = l := by
  suffices h : ∀ (n : Nat) (l : List α), l.length = n → (chunkArray l b).flatten = l from
    h l.length l rfl
  intro n
  induction n using Nat.strong_induction_on with
  | _ n ih =>
    intro l hn
    match l, hn with
    | [], hn => simp [chunkArray_nil]
    | x :: xs, hn =>
      rw [chunkArray_cons b hb _ (by simp), List.flatten_cons]
      have hlt : ((x :: xs).drop b).length < n := by
        simp only [List.length_drop, List.length_cons]
        simp only [List.length_cons] at hn
        omega
      rw [ih _ hlt _ rfl, List.take_append_drop]

/-- The number of chunks is `⌈l.length / b⌉`. -/
theorem chunkArray_length {α : Type _} (b : Nat) (hb : 1 ≤ b) (l : List α) :
    (chunkArray l b).length = (l.length + b - 1) / b := by
  suffices h : ∀ (n : Nat) (l : List α), l.length = n →
      (chunkArray l b).length = (l.length + b - 1) / b from h l.length l rfl
  intro n
  induction n using Nat.strong_induction_on with
  | _ n ih =>
    intro l hn
    match l, hn with
    | [], hn =>
      simp only [chunkArray_nil, List.length_nil]
      rw [Nat.div_eq_of_lt (by omega)]
    | x :: xs, hn =>
      rw [chunkArray_cons b hb _ (by simp), List.length_cons]
      have hlt : ((x :: xs).drop b).length < n := by
        simp only [List.length_drop, List.length_cons]
        simp only [List.length_cons] at hn
        omega
      rw [ih _ hlt _ rfl]
      simp only [List.length_drop, List.length_cons]
      rcases Nat.lt_or_ge (xs.length + 1) b with hsmall | hbig
      · have h1 : xs.length + 1 - b = 0 := by omega
        rw [h1]
        rw [Nat.div_eq_of_lt (show 0 + b - 1 < b by omega)]
        have h3 : xs.length + 1 + b - 1 = xs.length + b := by omega
        rw [h3, Nat.add_div_right _ (by omega), Nat.div_eq_of_lt (by omega)]
      · have h3 : xs.length + 1 + b - 1 = (xs.length + 1 - b + b - 1) + b := by omega
        rw [h3, Nat.add_div_right _ (by omega)]

/-- Every chunk except possibly the last has length exactly `b`. -/
theorem chunkArray_dropLast_length {α : Type _} (b : Nat) (hb : 1 ≤ b) (l : List α) :
    ∀ c ∈ (chunkArray l b).dropLast, c.length = b := by
  suffices h : ∀ (n : Nat) (l : List α), l.length = n →
      ∀ c ∈ (chunkArray l b).dropLast, c.length = b from h l.length l rfl
  intro n
  induction n using Nat.strong_induction_on with
  | _ n ih =>
    intro l hn
    match l, hn with
    | [], hn => simp [chunkArray_nil]
    | x :: xs, hn =>
      rw [chunkArray_cons b hb _ (by simp)]
      rcases hd : (x :: xs).drop b with _ | ⟨y, ys⟩
      · rw [chunkArray_nil]
        simp
      · have hlen : b < (x :: xs).length := by
          have h1 : ((x :: xs).drop b).length = ys.length + 1 := by rw [hd]; rfl
          rw [List.length_drop] at h1
          omega
        have hlt : (y :: ys).length < n := by
          have h1 : ((x :: xs).drop b).length = (y :: ys).length := by rw [hd]
          rw [List.length_drop] at h1
          simp only [List.length_cons] at hn h1 ⊢
          omega
        have hne2 : chunkArray (y :: ys) b ≠ [] := by
          rw [chunkArray_cons b hb _ (by simp)]
          simp
        rw [List.dropLast_cons_of_ne_nil hne2]
        intro c hc
        rcases List.mem_cons.mp hc with hhead | htail
        · rw [hhead, List.length_take]
          omega
        · exact ih _ hlt _ rfl c htail

/-- C2: for every input array and every batch size `b ≥ 1`, `chunkArray`
returns exactly `⌈n/b⌉` contiguous slices whose concatenation is the input
(hence nothing is dropped, duplicated or reordered), every slice except
possibly the last has length exactly `b`, an empty input yields no batches,
and a non-empty input of length at most `b` yields exactly one batch. -/
theorem chunkArray_spec {α : Type _} (array : List α) (chunkSize : Nat)
    (hb : 1 ≤ chunkSize) :
    (chunkArray array chunkSize).length = (array.length + chunkSize - 1) / chunkSize ∧
    (chunkArray array chunkSize).flatten = array ∧
    (∀ c ∈ (chunkArray array chunkSize).dropLast, c.length = chunkSize) ∧
    (array = [] → chunkArray array chunkSize = []) ∧
    (array ≠ [] → array.length ≤ chunkSize → (chunkArray array chunkSize).length = 1) := by
  refine ⟨chunkArray_length _ hb _, chunkArray_flatten _ hb _,
    chunkArray_dropLast_length _ hb _, ?_, ?_⟩
  · rintro rfl
    exact chunkArray_nil _
  · intro hne hle
    rw [chunkArray_length _ hb _]
    have hn : 1 ≤ array.length := List.length_pos.mpr hne
    have h1 : array.length + chunkSize - 1 = (array.length - 1) + chunkSize := by omega
    rw [h1, Nat.add_div_right _ (by omega), Nat.div_eq_of_lt (by omega)]

theorem chunkArray_spec_witness :
    (chunkArray [1, 2, 3, 4, 5] 2).length = (([1, 2, 3, 4, 5] : List Nat).length + 2 - 1) / 2 ∧
    (chunkArray [1, 2, 3, 4, 5] 2).flatten = [1, 2, 3, 4, 5] ∧
    (∀ c ∈ (chunkArray [1, 2, 3, 4, 5] 2).dropLast, c.length = 2) ∧
    (([1, 2, 3, 4, 5] : List Nat) = [] → chunkArray [1, 2, 3, 4, 5] 2 = []) ∧
    (([1, 2, 3, 4, 5] : List Nat) ≠ [] → ([1, 2, 3, 4, 5] : List Nat).length ≤ 2 →
      (chunkArray [1, 2, 3, 4, 5] 2).length = 1) :=
  chunkArray_spec [1, 2, 3, 4, 5] 2 (by decide)

/-! ## Termination of the chunk loop (C10) -/

theorem chunkLoopIndex_eq (chunkSize : Int) (k : Nat) :
    chunkLoopIndex chunkSize k = k * chunkSize := by
  induction k with
  | zero => simp [chunkLoopIndex]
  | succ k ih =>
    simp only [chunkLoopIndex, ih]
    push_cast
    ring

/-- C10: with `chunkSize ≥ 1` the loop guard `i < array.length` fails after
exactly `(chunkArray array chunkSize).length` iterations, so `chunkArray`
terminates on every input; with `chunkSize ≤ 0` and a non-empty input the
guard holds after every iteration and the index never advances, so the loop
never terminates. -/
theorem chunkArray_termination {α : Type _} (chunkSize : Int) (array : List α) :
    (1 ≤ chunkSize →
      (∀ j < (chunkArray array chunkSize.toNat).length,
        chunkLoopIndex chunkSize j < (array.length : Int)) ∧
      ¬ chunkLoopIndex chunkSize (chunkArray array chunkSize.toNat).length
          < (array.length : Int)) ∧
    (chunkSize ≤ 0 → array ≠ [] →
      (∀ k, chunkLoopIndex chunkSize k < (array.length : Int)) ∧
      (∀ k, chunkLoopIndex chunkSize (k + 1) ≤ chunkLoopIndex chunkSize k)) := by
  constructor
  · intro hpos
    obtain ⟨b, rfl⟩ : ∃ b : Nat, chunkSize = (b : Int) :=
      ⟨chunkSize.toNat, (Int.toNat_of_nonneg (by omega)).symm⟩
    have hb : 1 ≤ b := by exact_mod_cast hpos
    rw [Int.toNat_natCast, chunkArray_length _ hb _]
    set n := array.length with hn
    constructor
    · intro j hj
      rw [chunkLoopIndex_eq]
      have hn1 : 1 ≤ n := by
        by_contra hcon
        have : n = 0 := by omega
        rw [this, Nat.div_eq_of_lt (by omega)] at hj
        omega
      have hceil : (n + b - 1) / b = (n - 1) / b + 1 := by
        rw [show n + b - 1 = (n - 1) + b by omega, Nat.add_div_right _ (by omega)]
      rw [hceil] at hj
      have hjq : j ≤ (n - 1) / b := by omega
      have hmul : j * b ≤ ((n - 1) / b) * b := Nat.mul_le_mul_right b hjq
      have hdivle : ((n - 1) / b) * b ≤ n - 1 := Nat.div_mul_le_self _ _
      have : j * b < n := by omega
      exact_mod_cast this
    · rw [chunkLoopIndex_eq]
      rcases Nat.eq_zero_or_pos n with h0 | hn1
      · rw [h0]
        rw [show (0 + b - 1) / b = 0 from Nat.div_eq_of_lt (by omega)]
        simp
      · have hceil : (n + b - 1) / b = (n - 1) / b + 1 := by
          rw [show n + b - 1 = (n - 1) + b by omega, Nat.add_div_right _ (by omega)]
        rw [hceil]
        have hq := Nat.div_add_mod (n - 1) b
        have hr : (n - 1) % b < b := Nat.mod_lt _ (by omega)
        have key : n ≤ ((n - 1) / b + 1) * b := by
          have hexp : ((n - 1) / b + 1) * b = b * ((n - 1) / b) + b := by ring
          rw [hexp]
          generalize hP : b * ((n - 1) / b) = P at hq ⊢
          omega
        have : ¬ (((n - 1) / b + 1) * b < n) := by omega
        intro hcon
        apply this
        exact_mod_cast hcon
  · intro hneg hne
    have hn1 : 1 ≤ array.length := List.length_pos.mpr hne
    have hle : ∀ k, chunkLoopIndex chunkSize k ≤ 0 := by
      intro k
      induction k with
      | zero => simp [chunkLoopIndex]
      | succ k ih =>
        simp only [chunkLoopIndex]
        omega
    constructor
    · intro k
      have := hle k
      have hcast : (1 : Int) ≤ (array.length : Int) := by exact_mod_cast hn1
      omega
    · intro k
      have := hle k
      simp only [chunkLoopIndex]
      omega

theorem chunkArray_termination_witness :
    (¬ chunkLoopIndex 2 (chunkArray [1, 2, 3, 4, 5] (Int.toNat 2)).length
        < (([1, 2, 3, 4, 5] : List Nat).length : Int)) ∧
    chunkLoopIndex (-3) 4 < (([1] : List Nat).length : Int) ∧
    chunkLoopIndex (-3) 5 ≤ chunkLoopIndex (-3) 4 := by
  refine ⟨((chunkArray_termination 2 [1, 2, 3, 4, 5]).1 (by norm_num)).2, ?_, ?_⟩
  · exact ((chunkArray_termination (-3) [1]).2 (by norm_num) (by simp)).1 4
  · exact ((chunkArray_termination (-3) [1]).2 (by norm_num) (by simp)).2 4

/-! ## Sequential dispatch lemmas -/

theorem map_fst_mapIdx_pair {α β : Type _} (l : List α) (g : Nat → α → β) :
    (l.mapIdx (fun i a => (a, g i a))).map Prod.fst = l := by
  induction l generalizing g with
  | nil => simp
  | cons x xs ih => simp [List.mapIdx_cons, ih]

theorem processBatch_nil (result : ActionState) :
    processBatch ([] : List α) result = [] := by
  by_cases h : (!result.isSuccess || result.data.isNone) = true <;>
    simp [processBatch, h]

/-- The first components of a processed batch are exactly the batch rows. -/
theorem processBatch_map_fst {α : Type _} (batchRows : List α) (result : ActionState) :
    (processBatch batchRows result).map Prod.fst = batchRows := by
  by_cases h : (!result.isSuccess || result.data.isNone) = true
  · simp only [processBatch, h, if_true]
    rw [List.map_map]
    exact List.map_id' _
  · simp only [processBatch, h, if_false]
    exact map_fst_mapIdx_pair _ _

theorem processBatch_length {α : Type _} (batchRows : List α) (result : ActionState) :
    (processBatch batchRows result).length = batchRows.length := by
  have := congrArg List.length (processBatch_map_fst batchRows result)
  simpa using this

/-- A failed outcome decorates every row of the batch with the `"ERROR"`
placeholder carrying the failure message. -/
theorem processBatch_fail {α : Type _} (batchRows : List α) (result : ActionState)
    (h : result.isSuccess = false ∨ result.data = none) :
    processBatch batchRows result
      = batchRows.map (fun row =>
          (row, { EmissionFactorCode := "ERROR"
                  EmissionFactorName := "Failed: " ++ result.message : Label })) := by
  have hb : (!result.isSuccess || result.data.isNone) = true := by
    rcases h with h | h <;> simp [h]
  simp [processBatch, hb]

theorem processLoop_map_fst {α : Type _} (respond : Nat → ActionState)
    (j : Nat) (batches : List (List α)) :
    (processLoop respond j batches).map Prod.fst = batches.flatten := by
  induction batches generalizing j with
  | nil => simp [processLoop]
  | cons batch rest ih =>
    simp [processLoop, List.map_append, processBatch_map_fst, ih]

/-- When the first `i` batches all have length `B`, the result segment for
batch `i` starts at offset `B * i` and is that batch's processed output. -/
theorem processLoop_segment {α : Type _} (respond : Nat → ActionState) (B : Nat) :
    ∀ (i : Nat) (batches : List (List α)) (j : Nat),
      (∀ k, k < i → (batches.getD k []).length = B) →
      ((processLoop respond j batches).drop (B * i)).take (batches.getD i []).length
        = processBatch (batches.getD i []) (respond (j + i)) := by
  intro i
  induction i with
  | zero =>
    intro batches j _
    match batches with
    | [] => simp [processLoop, processBatch_nil]
    | batch :: rest =>
      simp only [Nat.mul_zero, List.drop_zero, List.getD_cons_zero, Nat.add_zero, processLoop]
      rw [← processBatch_length batch (respond j), List.take_left]
  | succ i ih =>
    intro batches j hfull
    match batches with
    | [] => simp [processLoop, processBatch_nil]
    | batch :: rest =>
      have hB : batch.length = B := by
        have := hfull 0 (Nat.succ_pos i)
        simpa using this
      simp only [processLoop, List.getD_cons_succ]
      have hsplit : B * (i + 1) = (processBatch batch (respond j)).length + B * i := by
        rw [processBatch_length, hB]
        ring
      rw [hsplit, ← List.drop_drop]
      rw [List.drop_left]
      have harg : j + (i + 1) = (j + 1) + i := by ring
      rw [harg]
      exact ih rest (j + 1) (fun k hk => by
        have := hfull (k + 1) (Nat.succ_lt_succ hk)
        simpa using this)

/-- C1: in sequential mode, for every row list and every assignment of
per-batch outcomes, the result pairs each input row in order (so the result
has the input's exact length and order no matter which batches fail), and
the segment of any failed batch consists of its rows decorated with
`EmissionFactorCode "ERROR"` and `EmissionFactorName "Failed: <message>"` —
in particular batches after a failed one are still processed. -/
theorem processData_spec {α : Type _} (rows : List α) (respond : Nat → ActionState) :
    ((processData rows respond).map Prod.fst = rows) ∧
    (∀ i, ((respond i).isSuccess = false ∨ (respond i).data = none) →
      ((processData rows respond).drop (20 * i)).take
          ((chunkArray rows 20).getD i []).length
        = ((chunkArray rows 20).getD i []).map
            (fun row => (row, { EmissionFactorCode := "ERROR"
                                EmissionFactorName :=
                                  "Failed: " ++ (respond i).message : Label }))) := by
  constructor
  · rw [processData, processLoop_map_fst, chunkArray_flatten 20 (by omega)]
  · intro i hfail
    by_cases hrange : i < (chunkArray rows 20).length
    · have hfull : ∀ k, k < i → ((chunkArray rows 20).getD k []).length = 20 := by
        intro k hk
        have hklt : k < (chunkArray rows 20).length := lt_trans hk hrange
        have hkdl : k < ((chunkArray rows 20).dropLast).length := by
          rw [List.length_dropLast]
          omega
        rw [List.getD_eq_getElem _ _ hklt]
        have hmem : (chunkArray rows 20)[k] ∈ (chunkArray rows 20).dropLast := by
          rw [← List.getElem_dropLast _ k hkdl]
          exact List.getElem_mem _
        exact chunkArray_dropLast_length 20 (by omega) rows _ hmem
      rw [processData, processLoop_segment respond 20 i _ 0 hfull]
      simpa using processBatch_fail _ _ hfail
    · push_neg at hrange
      rw [List.getD_eq_default _ _ hrange]
      simp

/-- A concrete outcome assignment: batch 0 succeeds with 20 labels, every
later batch fails. -/
def respondOneFailure : Nat → ActionState := fun i =>
  if i = 0 then
    { isSuccess := true, message := "ok"
      data := some (List.replicate 20 { EmissionFactorCode := "C",
                                        EmissionFactorName := "N" }) }
  else
    { isSuccess := false, message := "network down", data := none }

theorem processData_spec_witness :
    ((processData (List.range 21) respondOneFailure).map Prod.fst = List.range 21) ∧
    ((processData (List.range 21) respondOneFailure).drop (20 * 1)).take
        ((chunkArray (List.range 21) 20).getD 1 []).length
      = ((chunkArray (List.range 21) 20).getD 1 []).map
          (fun row => (row, { EmissionFactorCode := "ERROR"
                              EmissionFactorName :=
                                "Failed: " ++ (respondOneFailure 1).message : Label })) :=
  ⟨(processData_spec (List.range 21) respondOneFailure).1,
   (processData_spec (List.range 21) respondOneFailure).2 1 (by decide)⟩

/-! ## Parallel dispatch lemmas -/

theorem foldl_append_eq_flatten {β γ : Type _} (l : List β) (f : β → List γ) :
    ∀ acc : List γ, l.foldl (fun a x => a ++ f x) acc = acc ++ (l.map f).flatten := by
  induction l with
  | nil => intro acc; simp
  | cons x xs ih =>
    intro acc
    simp only [List.foldl_cons, List.map_cons, List.flatten_cons, ih, List.append_assoc]

theorem range_map_getD {γ δ : Type _} (l : List (List γ)) (f : List γ → δ) :
    (List.range l.length).map (fun i => f (l.getD i [])) = l.map f := by
  induction l with
  | nil => simp
  | cons x xs ih =>
    rw [List.length_cons, List.range_succ_eq_map, List.map_cons, List.map_map]
    simp only [List.getD_cons_zero, List.map_cons]
    have hmap : (List.range xs.length).map ((fun i => f ((x :: xs).getD i [])) ∘ Nat.succ)
        = (List.range xs.length).map (fun i => f (xs.getD i [])) := by
      apply List.map_congr_left
      intro a _
      simp [List.getD_cons_succ]
    rw [hmap, ih]

/-- C3: in parallel mode, once at least one batch outcome is a failure the
whole job is reported as one aggregate failure — no data, success flag off,
message counting all failed batches and joining their messages — whereas the
sequential loop keeps a full-length, ordered result row for every input row
under any outcome assignment. -/
theorem matchEmissionFactorsParallelAction_failure {α : Type _} (rows : List α)
    (batchSize : Nat) (respond : Nat → ActionState)
    (hfail : ∃ i, i < (chunkArray rows batchSize).length ∧ (respond i).isSuccess = false) :
    ((matchEmissionFactorsParallelAction rows batchSize respond).isSuccess = false ∧
     (matchEmissionFactorsParallelAction rows batchSize respond).data = none ∧
     (matchEmissionFactorsParallelAction rows batchSize respond).message
       = "Failed to process "
         ++ toString (((List.range (chunkArray rows batchSize).length).filter
              (fun i => !(respond i).isSuccess)).length)
         ++ " batch(es): "
         ++ String.intercalate "; "
              (((List.range (chunkArray rows batchSize).length).filter
                (fun i => !(respond i).isSuccess)).map (fun i => (respond i).message))) ∧
    (∀ respond' : Nat → ActionState,
      (processData rows respond').map Prod.fst = rows) := by
  have hcomm : ((List.range (chunkArray rows batchSize).length).map respond).filter
      (fun r => !r.isSuccess)
      = ((List.range (chunkArray rows batchSize).length).filter
          (fun i => !(respond i).isSuccess)).map respond := by
    rw [List.filter_map]
    rfl
  obtain ⟨i, hi, hfi⟩ := hfail
  have hne : 0 < (((List.range (chunkArray rows batchSize).length).map respond).filter
      (fun r => !r.isSuccess)).length := by
    apply List.length_pos.mpr
    intro hnil
    have hmem : respond i ∈ ((List.range (chunkArray rows batchSize).length).map respond).filter
        (fun r => !r.isSuccess) := by
      apply List.mem_filter.mpr
      constructor
      · exact List.mem_map_of_mem respond (List.mem_range.mpr hi)
      · simp [hfi]
    rw [hnil] at hmem
    exact List.not_mem_nil _ hmem
  refine ⟨⟨?_, ?_, ?_⟩, ?_⟩
  · simp only [matchEmissionFactorsParallelAction, hne, if_pos]
  · simp only [matchEmissionFactorsParallelAction, hne, if_pos]
  · simp only [matchEmissionFactorsParallelAction, hne, if_pos]
    rw [hcomm]
    simp only [List.length_map, List.map_map]
    rfl
  · intro respond'
    rw [processData, processLoop_map_fst]
    by_cases hb : 1 ≤ (20 : Nat)
    · exact chunkArray_flatten 20 hb rows
    · omega

/-- Concrete parallel outcomes: batch 0 succeeds, batch 1 fails. -/
def respondParallelMixed : Nat → ActionState := fun i =>
  if i = 0 then
    { isSuccess := true, message := "ok"
      data := some [{ EmissionFactorCode := "c1", EmissionFactorName := "n1" },
                    { EmissionFactorCode := "c2", EmissionFactorName := "n2" }] }
  else
    { isSuccess := false, message := "boom", data := none }

theorem matchEmissionFactorsParallelAction_failure_witness :
    ((matchEmissionFactorsParallelAction [1, 2, 3] 2 respondParallelMixed).isSuccess = false ∧
     (matchEmissionFactorsParallelAction [1, 2, 3] 2 respondParallelMixed).data = none ∧
     (matchEmissionFactorsParallelAction [1, 2, 3] 2 respondParallelMixed).message
       = "Failed to process "
         ++ toString (((List.range (chunkArray [1, 2, 3] 2).length).filter
              (fun i => !(respondParallelMixed i).isSuccess)).length)
         ++ " batch(es): "
         ++ String.intercalate "; "
              (((List.range (chunkArray [1, 2, 3] 2).length).filter
                (fun i => !(respondParallelMixed i).isSuccess)).map
                  (fun i => (respondParallelMixed i).message))) ∧
    (∀ respond' : Nat → ActionState,
      (processData [1, 2, 3] respond').map Prod.fst = [1, 2, 3]) :=
  matchEmissionFactorsParallelAction_failure [1, 2, 3] 2 respondParallelMixed
    ⟨1, by decide, by decide⟩

/-- C7: in parallel mode, when every batch succeeds (with per-batch data of
the batch's length, as the normalizer guarantees), the action returns a
success whose data is the concatenation of the per-batch label arrays in
original batch-index order, and that data has length exactly `rows.length`. -/
theorem matchEmissionFactorsParallelAction_success {α : Type _} (rows : List α)
    (batchSize : Nat) (hb : 1 ≤ batchSize) (respond : Nat → ActionState)
    (hsucc : ∀ i, i < (chunkArray rows batchSize).length → (respond i).isSuccess = true)
    (hlen : ∀ i, i < (chunkArray rows batchSize).length →
      ∃ d, (respond i).data = some d ∧
        d.length = ((chunkArray rows batchSize).getD i []).length) :
    (matchEmissionFactorsParallelAction rows batchSize respond).isSuccess = true ∧
    (matchEmissionFactorsParallelAction rows batchSize respond).data
      = some (((List.range (chunkArray rows batchSize).length).map
          (fun i => (respond i).data.getD [])).flatten) ∧
    ∃ d, (matchEmissionFactorsParallelAction rows batchSize respond).data = some d ∧
      d.length = rows.length := by
  have hempty : ((List.range (chunkArray rows batchSize).length).map respond).filter
      (fun r => !r.isSuccess) = [] := by
    apply List.filter_eq_nil_iff.mpr
    intro r hr
    obtain ⟨i, hi, rfl⟩ := List.mem_map.mp hr
    simp [hsucc i (List.mem_range.mp hi)]
  have hdata : (matchEmissionFactorsParallelAction rows batchSize respond).data
      = some (((List.range (chunkArray rows batchSize).length).map
          (fun i => (respond i).data.getD [])).flatten) := by
    simp only [matchEmissionFactorsParallelAction, hempty]
    rw [if_neg (by simp)]
    rw [foldl_append_eq_flatten, List.nil_append, List.map_map]
    rfl
  refine ⟨?_, hdata, ?_⟩
  · simp only [matchEmissionFactorsParallelAction, hempty]
    rw [if_neg (by simp)]
  · refine ⟨_, hdata, ?_⟩
    rw [List.length_flatten, List.map_map]
    have hcongr : (List.range (chunkArray rows batchSize).length).map
        (List.length ∘ fun i => (respond i).data.getD [])
        = (List.range (chunkArray rows batchSize).length).map
            (fun i => ((chunkArray rows batchSize).getD i []).length) := by
      apply List.map_congr_left
      intro i hi
      obtain ⟨d, hd, hdl⟩ := hlen i (List.mem_range.mp hi)
      simp [Function.comp, hd, hdl]
    rw [hcongr, range_map_getD (chunkArray rows batchSize) List.length,
      ← List.length_flatten, chunkArray_flatten batchSize hb rows]

/-- Concrete parallel outcomes: both batches succeed with data of the
batch's length. -/
def respondParallelOk : Nat → ActionState := fun i =>
  if i = 0 then
    { isSuccess := true, message := "ok"
      data := some [{ EmissionFactorCode := "c1", EmissionFactorName := "n1" },
                    { EmissionFactorCode := "c2", EmissionFactorName := "n2" }] }
  else
    { isSuccess := true, message := "ok"
      data := some [{ EmissionFactorCode := "c3", EmissionFactorName := "n3" }] }

theorem matchEmissionFactorsParallelAction_success_witness :
    (matchEmissionFactorsParallelAction [1, 2, 3] 2 respondParallelOk).isSuccess = true ∧
    (matchEmissionFactorsParallelAction [1, 2, 3] 2 respondParallelOk).data
      = some (((List.range (chunkArray [1, 2, 3] 2).length).map
          (fun i => (respondParallelOk i).data.getD [])).flatten) ∧
    ∃ d, (matchEmissionFactorsParallelAction [1, 2, 3] 2 respondParallelOk).data = some d ∧
      d.length = ([1, 2, 3] : List Nat).length :=
  matchEmissionFactorsParallelAction_success [1, 2, 3] 2 (by decide) respondParallelOk
    (by decide)
    (fun i hi => by
      match i, hi with
      | 0, _ =>
        exact ⟨[{ EmissionFactorCode := "c1", EmissionFactorName := "n1" },
                { EmissionFactorCode := "c2", EmissionFactorName := "n2" }], rfl, rfl⟩
      | 1, _ =>
        exact ⟨[{ EmissionFactorCode := "c3", EmissionFactorName := "n3" }], rfl, rfl⟩
      | n + 2, hi =>
        rw [show (chunkArray ([1, 2, 3] : List Nat) 2).length = 2 from by decide] at hi
        omega)

/-! ## Normalizer lemmas -/

/-- A located array only arises from truthy, object-typed parsed values, so
the `!parsedResponse || typeof parsedResponse !== "object"` guard never
blocks a value in which a label array can be located. -/
theorem locateMatches_guard (p : Json) (ms : List Json)
    (hloc : locateMatches p = some ms) :
    p.truthy = true ∧ p.isObjectType = true := by
  cases p with
  | arr elems => exact ⟨rfl, rfl⟩
  | obj fields => exact ⟨rfl, rfl⟩
  | null =>
    rw [show locateMatches .null = none from rfl] at hloc
    cases hloc
  | bool b =>
    rw [show locateMatches (.bool b) = none from rfl] at hloc
    cases hloc
  | num n =>
    rw [show locateMatches (.num n) = none from rfl] at hloc
    cases hloc
  | str s =>
    rw [show locateMatches (.str s) = none from rfl] at hloc
    cases hloc

theorem locateMatches_matches (p : Json) (xs : List Json)
    (h : p.getField? "matches" = some (.arr xs)) :
    locateMatches p = some xs := by
  simp only [locateMatches]
  rw [h]
  rfl

theorem locateMatches_results (p : Json) (xs : List Json)
    (hm : ∀ v, p.getField? "matches" = some v → v.asArray? = none)
    (h : p.getField? "results" = some (.arr xs)) :
    locateMatches p = some xs := by
  have h1 : (p.getField? "matches").bind Json.asArray? = none := by
    cases hv : p.getField? "matches" with
    | none => rfl
    | some v => simpa using hm v hv
  simp only [locateMatches]
  rw [h1, h]
  rfl

theorem locateMatches_self_array (xs : List Json) :
    locateMatches (.arr xs) = some xs := rfl

theorem locateMatches_fallback (fields : List (String × Json)) (kv : String × Json)
    (hm : ∀ v, (Json.obj fields).getField? "matches" = some v → v.asArray? = none)
    (hr : ∀ v, (Json.obj fields).getField? "results" = some v → v.asArray? = none)
    (hfind : fields.find? (fun kw =>
        match kw.2 with
        | .arr elems => elems.length > 0
        | _ => false) = some kv) :
    locateMatches (.obj fields) = kv.2.asArray? := by
  have h1 : ((Json.obj fields).getField? "matches").bind Json.asArray? = none := by
    cases hv : (Json.obj fields).getField? "matches" with
    | none => rfl
    | some v => simpa using hm v hv
  have h2 : ((Json.obj fields).getField? "results").bind Json.asArray? = none := by
    cases hv : (Json.obj fields).getField? "results" with
    | none => rfl
    | some v => simpa using hr v hv
  simp only [locateMatches]
  rw [h1, h2, hfind]
  rfl

theorem probeKeys_hit (e : Json) (key : String) (rest : List String)
    (fallback : String) (v : Json)
    (h : e.getField? key = some v) (hv : v.truthy = true) :
    probeKeys e (key :: rest) fallback = v := by
  simp [probeKeys, h, hv]

theorem probeKeys_skip (e : Json) (key : String) (rest : List String)
    (fallback : String)
    (h : ∀ w, e.getField? key = some w → w.truthy = false) :
    probeKeys e (key :: rest) fallback = probeKeys e rest fallback := by
  cases hv : e.getField? key with
  | none => simp [probeKeys, hv]
  | some w => simp [probeKeys, hv, h w hv]

theorem normalize_guard_error (p : Json) (rowCount : Nat)
    (h : (!p.truthy || !p.isObjectType) = true) :
    matchEmissionFactorsNormalize (some p) rowCount
      = .error "Failed to parse response: invalid format" := by
  simp [matchEmissionFactorsNormalize, h]

theorem normalize_locate_none (p : Json) (rowCount : Nat)
    (hg : (!p.truthy || !p.isObjectType) = false)
    (hl : locateMatches p = none) :
    matchEmissionFactorsNormalize (some p) rowCount
      = .error "Failed to find matches in the response" := by
  simp [matchEmissionFactorsNormalize, hg, hl]

theorem normalize_locate_empty (p : Json) (rowCount : Nat)
    (hg : (!p.truthy || !p.isObjectType) = false)
    (hl : locateMatches p = some []) :
    matchEmissionFactorsNormalize (some p) rowCount
      = .error "No matches returned in the response" := by
  simp [matchEmissionFactorsNormalize, hg, hl]

theorem normalize_ok (p : Json) (rowCount : Nat) (ms : List Json)
    (hg : (!p.truthy || !p.isObjectType) = false)
    (hl : locateMatches p = some ms) (hne : ms ≠ []) :
    matchEmissionFactorsNormalize (some p) rowCount
      = .ok ((reconcileLength ms rowCount).map normalizeMatch) := by
  have hlen : ¬ ms.length = 0 := by
    intro h
    exact hne (List.length_eq_zero.mp h)
  simp [matchEmissionFactorsNormalize, hg, hl, hlen]

/-- C5: normalization fails exactly when the raw text does not parse, the
parsed value is falsy or not object-typed, no label array is located, or the
located array is empty; and the label array is located by trying, in order,
the field `matches`, the field `results`, the parsed value itself when it is
an array, and the first object field holding a non-empty array. -/
theorem matchEmissionFactorsNormalize_failure_iff (parsed : Option Json) (rowCount : Nat) :
    ((matchEmissionFactorsNormalize parsed rowCount).isOk = false ↔
      (parsed = none ∨
        ∃ p, parsed = some p ∧
          (p.truthy = false ∨ p.isObjectType = false ∨
           locateMatches p = none ∨ locateMatches p = some []))) ∧
    (∀ p xs, p.getField? "matches" = some (.arr xs) → locateMatches p = some xs) ∧
    (∀ p xs, (∀ v, p.getField? "matches" = some v → v.asArray? = none) →
      p.getField? "results" = some (.arr xs) → locateMatches p = some xs) ∧
    (∀ xs, locateMatches (.arr xs) = some xs) ∧
    (∀ (fields : List (String × Json)) (kv : String × Json),
      (∀ v, (Json.obj fields).getField? "matches" = some v → v.asArray? = none) →
      (∀ v, (Json.obj fields).getField? "results" = some v → v.asArray? = none) →
      fields.find? (fun kw =>
          match kw.2 with
          | .arr elems => elems.length > 0
          | _ => false) = some kv →
      locateMatches (.obj fields) = kv.2.asArray?) := by
  refine ⟨?_, locateMatches_matches, locateMatches_results,
    locateMatches_self_array, locateMatches_fallback⟩
  cases parsed with
  | none =>
    constructor
    · intro _
      exact Or.inl rfl
    · intro _
      rfl
  | some p =>
    by_cases hguard : (!p.truthy || !p.isObjectType) = true
    · rw [normalize_guard_error p rowCount hguard]
      constructor
      · intro _
        right
        refine ⟨p, rfl, ?_⟩
        rcases Bool.or_eq_true_iff.mp hguard with h | h
        · exact Or.inl (by simpa using h)
        · exact Or.inr (Or.inl (by simpa using h))
      · intro _
        rfl
    · rw [Bool.not_eq_true] at hguard
      cases hloc : locateMatches p with
      | none =>
        rw [normalize_locate_none p rowCount hguard hloc]
        exact ⟨fun _ => Or.inr ⟨p, rfl, Or.inr (Or.inr (Or.inl hloc))⟩, fun _ => rfl⟩
      | some ms =>
        match ms with
        | [] =>
          rw [normalize_locate_empty p rowCount hguard hloc]
          exact ⟨fun _ => Or.inr ⟨p, rfl, Or.inr (Or.inr (Or.inr hloc))⟩, fun _ => rfl⟩
        | m :: ms' =>
          rw [normalize_ok p rowCount (m :: ms') hguard hloc (by simp)]
          simp only [Except.isOk, Except.toBool, Bool.true_eq_false, false_iff]
          rintro (hcon | ⟨q, hq, hcon⟩)
          · cases hcon
          · have hpq : p = q := by injection hq
            subst hpq
            have hg' : p.truthy = true ∧ p.isObjectType = true := by
              rcases Bool.or_eq_false_iff.mp hguard with ⟨h1, h2⟩
              exact ⟨by simpa using h1, by simpa using h2⟩
            rcases hcon with h | h | h | h
            · rw [hg'.1] at h
              cases h
            · rw [hg'.2] at h
              cases h
            · rw [hloc] at h
              cases h
            · rw [hloc] at h
              have := List.cons_ne_nil m ms'
              injection h with h'
              exact this h'

theorem matchEmissionFactorsNormalize_failure_iff_witness :
    locateMatches (Json.obj [("matches", Json.arr [Json.num 1])]) = some [Json.num 1] ∧
    locateMatches (Json.obj [("note", Json.str "x"), ("results", Json.arr [Json.num 2])])
      = some [Json.num 2] ∧
    locateMatches (Json.arr [Json.num 3]) = some [Json.num 3] ∧
    locateMatches (Json.obj [("a", Json.str "s"), ("b", Json.arr [Json.num 4])])
      = (Json.arr [Json.num 4]).asArray? := by
  refine ⟨?_, ?_, ?_, ?_⟩
  · exact (matchEmissionFactorsNormalize_failure_iff
      (some (Json.obj [("matches", Json.arr [Json.num 1])])) 1).2.1 _ _ rfl
  · exact (matchEmissionFactorsNormalize_failure_iff
      (some (Json.obj [("note", Json.str "x"), ("results", Json.arr [Json.num 2])])) 1).2.2.1 _ _
      (fun v hv => by
        rw [show (Json.obj [("note", Json.str "x"),
          ("results", Json.arr [Json.num 2])]).getField? "matches" = none from rfl] at hv
        exact Option.noConfusion hv)
      rfl
  · exact (matchEmissionFactorsNormalize_failure_iff
      (some (Json.arr [Json.num 3])) 1).2.2.2.1 _
  · exact (matchEmissionFactorsNormalize_failure_iff
      (some (Json.obj [("a", Json.str "s"), ("b", Json.arr [Json.num 4])])) 1).2.2.2.2 _
      (("b", Json.arr [Json.num 4]))
      (fun v hv => by
        rw [show (Json.obj [("a", Json.str "s"),
          ("b", Json.arr [Json.num 4])]).getField? "matches" = none from rfl] at hv
        exact Option.noConfusion hv)
      (fun v hv => by
        rw [show (Json.obj [("a", Json.str "s"),
          ("b", Json.arr [Json.num 4])]).getField? "results" = none from rfl] at hv
        exact Option.noConfusion hv)
      rfl

theorem reconcileLength_length (ms : List Json) (rowCount : Nat) :
    (reconcileLength ms rowCount).length = rowCount := by
  by_cases h1 : ms.length < rowCount
  · simp [reconcileLength, h1]
    omega
  · by_cases h2 : ms.length > rowCount
    · simp [reconcileLength, h1, h2]
      omega
    · simp [reconcileLength, h1, h2]
      omega

theorem reconcileLength_pad (ms : List Json) (rowCount : Nat)
    (h : ms.length ≤ rowCount) :
    reconcileLength ms rowCount
      = ms ++ List.replicate (rowCount - ms.length) missingPlaceholder := by
  by_cases h1 : ms.length < rowCount
  · simp [reconcileLength, h1]
  · have heq : ms.length = rowCount := by omega
    simp [reconcileLength, h1, heq]

theorem reconcileLength_truncate (ms : List Json) (rowCount : Nat)
    (h : rowCount ≤ ms.length) :
    reconcileLength ms rowCount = ms.take rowCount := by
  by_cases h2 : ms.length > rowCount
  · simp [reconcileLength, show ¬ ms.length < rowCount by omega, h2]
  · have hif1 : ¬ ms.length < rowCount := by omega
    simp only [reconcileLength, hif1, h2, if_false]
    rw [List.take_of_length_le (by omega)]

/-- C4: for every located non-empty label array `ms` and expected row count
`k ≥ 1`, normalization succeeds with data of length exactly `k` — padded on
the right with `MISSING` sentinel labels when `ms` is short, truncated from
the end when long — and each element's two fields are derived by probing the
alternate key spellings in priority order, so that the alias-keyed label
normalizes exactly like the canonical one. -/
theorem matchEmissionFactorsNormalize_success (p : Json) (rowCount : Nat)
    (ms : List Json) (_hk : 1 ≤ rowCount)
    (hloc : locateMatches p = some ms) (hne : ms ≠ []) :
    ∃ data, matchEmissionFactorsNormalize (some p) rowCount = .ok data ∧
      data.length = rowCount ∧
      (ms.length ≤ rowCount →
        data = ms.map normalizeMatch
          ++ List.replicate (rowCount - ms.length)
              { EmissionFactorCode := Json.str "MISSING"
                EmissionFactorName := Json.str "Match not provided" }) ∧
      (rowCount ≤ ms.length → data = (ms.take rowCount).map normalizeMatch) ∧
      (normalizeMatch (.obj [("code", .str "111110"), ("name", .str "Soybean Farming")])
        = normalizeMatch (.obj [("EmissionFactorCode", .str "111110"),
                                ("EmissionFactorName", .str "Soybean Farming")])) ∧
      (∀ e v, e.getField? "EmissionFactorCode" = some v → v.truthy = true →
        (normalizeMatch e).EmissionFactorCode = v) ∧
      (∀ e v, (∀ w, e.getField? "EmissionFactorCode" = some w → w.truthy = false) →
        e.getField? "code" = some v → v.truthy = true →
        (normalizeMatch e).EmissionFactorCode = v) ∧
      (∀ e v, (∀ w, e.getField? "EmissionFactorCode" = some w → w.truthy = false) →
        (∀ w, e.getField? "code" = some w → w.truthy = false) →
        e.getField? "factorCode" = some v → v.truthy = true →
        (normalizeMatch e).EmissionFactorCode = v) ∧
      (∀ e, (∀ w, e.getField? "EmissionFactorCode" = some w → w.truthy = false) →
        (∀ w, e.getField? "code" = some w → w.truthy = false) →
        (∀ w, e.getField? "factorCode" = some w → w.truthy = false) →
        (normalizeMatch e).EmissionFactorCode = .str "UNKNOWN") := by
  have hg : (!p.truthy || !p.isObjectType) = false := by
    obtain ⟨h1, h2⟩ := locateMatches_guard p ms hloc
    simp [h1, h2]
  refine ⟨(reconcileLength ms rowCount).map normalizeMatch,
    normalize_ok p rowCount ms hg hloc hne, ?_, ?_, ?_, ?_, ?_, ?_, ?_, ?_⟩
  · rw [List.length_map, reconcileLength_length]
  · intro hle
    rw [reconcileLength_pad ms rowCount hle, List.map_append, List.map_replicate]
    rfl
  · intro hge
    rw [reconcileLength_truncate ms rowCount hge]
  · rfl
  · intro e v h hv
    unfold normalizeMatch
    rw [probeKeys_hit e _ _ _ v h hv]
  · intro e v hmiss h hv
    unfold normalizeMatch
    rw [probeKeys_skip e _ _ _ hmiss, probeKeys_hit e _ _ _ v h hv]
  · intro e v hmiss1 hmiss2 h hv
    unfold normalizeMatch
    rw [probeKeys_skip e _ _ _ hmiss1, probeKeys_skip e _ _ _ hmiss2,
      probeKeys_hit e _ _ _ v h hv]
  · intro e hmiss1 hmiss2 hmiss3
    unfold normalizeMatch
    rw [probeKeys_skip e _ _ _ hmiss1, probeKeys_skip e _ _ _ hmiss2,
      probeKeys_skip e _ _ _ hmiss3]
    rfl

theorem matchEmissionFactorsNormalize_success_witness :
    ∃ data,
      matchEmissionFactorsNormalize
        (some (Json.obj [("matches", Json.arr
          [Json.obj [("code", Json.str "111110"),
                     ("name", Json.str "Soybean Farming")]])])) 3 = .ok data ∧
      data.length = 3 ∧
      (([Json.obj [("code", Json.str "111110"),
          ("name", Json.str "Soybean Farming")]] : List Json).length ≤ 3 →
        data = ([Json.obj [("code", Json.str "111110"),
            ("name", Json.str "Soybean Farming")]] : List Json).map normalizeMatch
          ++ List.replicate (3 - ([Json.obj [("code", Json.str "111110"),
              ("name", Json.str "Soybean Farming")]] : List Json).length)
              { EmissionFactorCode := Json.str "MISSING"
                EmissionFactorName := Json.str "Match not provided" }) ∧
      (3 ≤ ([Json.obj [("code", Json.str "111110"),
          ("name", Json.str "Soybean Farming")]] : List Json).length →
        data = (([Json.obj [("code", Json.str "111110"),
            ("name", Json.str "Soybean Farming")]] : List Json).take 3).map normalizeMatch) ∧
      (normalizeMatch (.obj [("code", .str "111110"), ("name", .str "Soybean Farming")])
        = normalizeMatch (.obj [("EmissionFactorCode", .str "111110"),
                                ("EmissionFactorName", .str "Soybean Farming")])) ∧
      (∀ e v, e.getField? "EmissionFactorCode" = some v → v.truthy = true →
        (normalizeMatch e).EmissionFactorCode = v) ∧
      (∀ e v, (∀ w, e.getField? "EmissionFactorCode" = some w → w.truthy = false) →
        e.getField? "code" = some v → v.truthy = true →
        (normalizeMatch e).EmissionFactorCode = v) ∧
      (∀ e v, (∀ w, e.getField? "EmissionFactorCode" = some w → w.truthy = false) →
        (∀ w, e.getField? "code" = some w → w.truthy = false) →
        e.getField? "factorCode" = some v → v.truthy = true →
        (normalizeMatch e).EmissionFactorCode = v) ∧
      (∀ e, (∀ w, e.getField? "EmissionFactorCode" = some w → w.truthy = false) →
        (∀ w, e.getField? "code" = some w → w.truthy = false) →
        (∀ w, e.getField? "factorCode" = some w → w.truthy = false) →
        (normalizeMatch e).EmissionFactorCode = .str "UNKNOWN") :=
  matchEmissionFactorsNormalize_success
    (Json.obj [("matches", Json.arr
      [Json.obj [("code", Json.str "111110"), ("name", Json.str "Soybean Farming")]])])
    3
    [Json.obj [("code", Json.str "111110"), ("name", Json.str "Soybean Farming")]]
    (by decide) rfl (by simp)

/-- C6: evaluating the normalizer at `{"matches":[{"EmissionFactorCode":5}]}`
shows that a truthy non-string field value is passed through unchanged, so
the normalized code field is the JSON number `5` — not a non-empty string as
the specified invariant requires.  Falsy or missing values are replaced by
the sentinels, but no string coercion or validation is performed. -/
theorem normalizeMatch_numeric_passthrough :
    matchEmissionFactorsNormalize
      (some (Json.obj [("matches",
        Json.arr [Json.obj [("EmissionFactorCode", Json.num 5)]])])) 1
      = .ok [{ EmissionFactorCode := Json.num 5
               EmissionFactorName := Json.str "Unknown emission factor" }] ∧
    Json.isNonemptyString (Json.num 5) = false :=
  ⟨rfl, rfl⟩

/-! ## Fuzzy search lemmas -/

/-- The code block's contribution for one term: exact 100, prefix 75,
substring 50, mutually exclusive within the block. -/
def codeComponent (codeText term : List Char) : Nat :=
  if term <:+: codeText then
    if codeText = term then 100 else if term <+: codeText then 75 else 50
  else 0

/-- The name block's contribution for one term: full-name prefix 25 or
substring 15 when the name contains the term, else 10 when some
whitespace-delimited word of the name starts with the term. -/
def nameComponent (nameText : List Char) (nameWords : List (List Char))
    (term : List Char) : Nat :=
  if term <:+: nameText then
    if term <+: nameText then 25 else 15
  else if (nameWords.find? (fun word => decide (term <+: word))).isSome then 10
  else 0

/-- Whether one term matches the entry by any rule. -/
def termMatched (codeText nameText : List Char) (nameWords : List (List Char))
    (term : List Char) : Bool :=
  decide (term <:+: codeText) || decide (term <:+: nameText)
    || (nameWords.find? (fun word => decide (term <+: word))).isSome

/-- One loop iteration adds the code component plus the name component to
the score and counts the term as matched when either block fired. -/
theorem scoreStep_eq (codeText nameText : List Char) (nameWords : List (List Char))
    (st : Nat × Nat) (term : List Char) :
    scoreStep codeText nameText nameWords st term
      = (st.1 + (codeComponent codeText term + nameComponent nameText nameWords term),
         st.2 + (if termMatched codeText nameText nameWords term then 1 else 0)) := by
  by_cases h1 : term <:+: codeText <;>
    by_cases h2 : term <:+: nameText <;>
      cases h3 : (nameWords.find? (fun word => decide (term <+: word))) <;>
        simp [scoreStep, codeComponent, nameComponent, termMatched, h1, h2, h3] <;>
          omega

theorem foldl_scoreStep (codeText nameText : List Char) (nameWords : List (List Char))
    (terms : List (List Char)) :
    ∀ s m : Nat, terms.foldl (scoreStep codeText nameText nameWords) (s, m)
      = (s + (terms.map (fun t =>
            codeComponent codeText t + nameComponent nameText nameWords t)).sum,
         m + terms.countP (termMatched codeText nameText nameWords)) := by
  induction terms with
  | nil => intro s m; simp
  | cons t ts ih =>
    intro s m
    rw [List.foldl_cons, scoreStep_eq, ih]
    simp only [List.map_cons, List.sum_cons, List.countP_cons, Prod.mk.injEq]
    constructor <;> omega

/-- C8 (amended): for an entry with a non-empty name, the score is the sum
over the query terms of an independent code component (exact 100 / prefix
75 / substring 50) plus an independent name component (name prefix 25 /
name substring 15 / word prefix 10) — the two blocks are additive, not
ordered by a single precedence — plus the flat 30-point bonus exactly when
the query is non-empty and every term matched; the match flag is whether
any term matched. -/
theorem scoreFactor_eq_components (terms : List (List Char)) (factor : EFactor)
    (nm : List Char) (hname : factor.name = some nm) (hnm : nm ≠ []) :
    (scoreFactor terms factor).1
      = (terms.map (fun t =>
          codeComponent (factor.code.map Char.toLower) t
          + nameComponent (nm.map Char.toLower) (splitWs (nm.map Char.toLower)) t)).sum
        + (if terms ≠ [] ∧ (∀ t ∈ terms,
              termMatched (factor.code.map Char.toLower) (nm.map Char.toLower)
                (splitWs (nm.map Char.toLower)) t = true) then 30 else 0) ∧
    (scoreFactor terms factor).2
      = terms.any (termMatched (factor.code.map Char.toLower) (nm.map Char.toLower)
          (splitWs (nm.map Char.toLower))) := by
  have hempty : nm.isEmpty = false := by
    cases nm with
    | nil => exact absurd rfl hnm
    | cons c cs => rfl
  set ct := factor.code.map Char.toLower with hct
  set nt := nm.map Char.toLower with hnt
  set nws := splitWs (nm.map Char.toLower) with hnws
  set cnt := terms.countP (termMatched ct nt nws) with hcnt
  set total := (terms.map (fun t => codeComponent ct t + nameComponent nt nws t)).sum
    with htotal
  have hfst : (scoreFactor terms factor).1
      = if (decide (cnt > 0) && decide (cnt = terms.length)) = true
        then total + 30 else total := by
    simp only [scoreFactor, hname, hempty, Bool.false_eq_true, if_false,
      foldl_scoreStep, Nat.zero_add]
  have hsnd : (scoreFactor terms factor).2 = decide (cnt > 0) := by
    simp only [scoreFactor, hname, hempty, Bool.false_eq_true, if_false,
      foldl_scoreStep, Nat.zero_add]
  have hany : decide (cnt > 0) = terms.any (termMatched ct nt nws) := by
    rcases h : terms.any (termMatched ct nt nws) with _ | _
    · have hnone : ∀ t ∈ terms, ¬ termMatched ct nt nws t = true := by
        intro t ht hcon
        have := List.any_eq_true.mpr ⟨t, ht, hcon⟩
        rw [h] at this
        cases this
      have hz : cnt = 0 := by
        rw [hcnt, List.countP_eq_zero]
        exact hnone
      simp [hz]
    · obtain ⟨t, ht, hmt⟩ := List.any_eq_true.mp h
      have hpos : 0 < cnt := by
        rw [hcnt, List.countP_pos_iff]
        exact ⟨t, ht, hmt⟩
      simp [hpos]
  refine ⟨?_, by rw [hsnd, hany]⟩
  rw [hfst]
  by_cases hc : terms ≠ [] ∧ (∀ t ∈ terms, termMatched ct nt nws t = true)
  · obtain ⟨hne, hall⟩ := hc
    have hlen : cnt = terms.length := by
      rw [hcnt]
      exact List.countP_eq_length.mpr hall
    have hpos : 0 < terms.length := List.length_pos.mpr hne
    rw [if_pos (by simp [hlen, hpos]), if_pos ⟨hne, hall⟩]
  · have hbool : (decide (cnt > 0) && decide (cnt = terms.length)) = false := by
      by_cases hA : terms = []
      · subst hA
        have : cnt = 0 := by rw [hcnt]; rfl
        simp [this]
      · have hB : ¬ ∀ t ∈ terms, termMatched ct nt nws t = true := by
          intro hcon
          exact hc ⟨hA, hcon⟩
        have hne' : cnt ≠ terms.length := by
          intro hcon
          exact hB (List.countP_eq_length.mp (hcnt ▸ hcon))
        simp [hne']
    rw [hbool, if_neg (by simp), if_neg hc]
    omega

/-- Modelled from the spec's words for comparison with the source: "Per
term, scoring precedence (highest to lowest): exact code match (100), code
prefix match (75), code substring match (50), name prefix match (25), name
substring match (15), term is a prefix of some whitespace-delimited word in
the name (10)" — each term receives the score of the single
highest-precedence rule that applies. -/
def specPrecedenceTermScore (codeText nameText : List Char)
    (nameWords : List (List Char)) (term : List Char) : Nat :=
  if codeText = term then 100
  else if term <+: codeText then 75
  else if term <:+: codeText then 50
  else if term <+: nameText then 25
  else if term <:+: nameText then 15
  else if nameWords.any (fun word => decide (term <+: word)) then 10
  else 0

/-- Modelled from the spec's words: the per-term precedence scores summed
over the query terms, plus the flat 30-point full-coverage bonus. -/
def specPrecedenceScore (terms : List (List Char)) (factor : EFactor) : Nat :=
  match factor.name with
  | none => 0
  | some nm =>
    if nm.isEmpty then 0
    else
      let codeText := factor.code.map Char.toLower
      let nameText := nm.map Char.toLower
      let nameWords := splitWs nameText
      let base := (terms.map (specPrecedenceTermScore codeText nameText nameWords)).sum
      if terms ≠ [] ∧ ∀ t ∈ terms,
          specPrecedenceTermScore codeText nameText nameWords t > 0
      then base + 30 else base

/-- C8 counterexample: for the entry `{code: "ab", name: "ab x"}` and the
query `"ab"`, the source awards the exact-code 100 *and* the name-prefix 25
for the same term (plus the 30 bonus), scoring 155, while the spec's
precedence reading awards only the highest rule, 100 (plus the 30 bonus),
scoring 130. -/
theorem scoreFactor_ne_specPrecedence :
    (scoreFactor [['a', 'b']] ⟨['a', 'b'], some ['a', 'b', ' ', 'x']⟩).1 = 155 ∧
    specPrecedenceScore [['a', 'b']] ⟨['a', 'b'], some ['a', 'b', ' ', 'x']⟩ = 130 ∧
    (scoreFactor [['a', 'b']] ⟨['a', 'b'], some ['a', 'b', ' ', 'x']⟩).1
      ≠ specPrecedenceScore [['a', 'b']] ⟨['a', 'b'], some ['a', 'b', ' ', 'x']⟩ := by
  refine ⟨by decide, by decide, by decide⟩

theorem scoreFactor_eq_components_witness :
    (scoreFactor [['a', 'b']] ⟨['a', 'b'], some ['a', 'b', ' ', 'x']⟩).1
      = ([['a', 'b']].map (fun t =>
          codeComponent ((['a', 'b'] : List Char).map Char.toLower) t
          + nameComponent ((['a', 'b', ' ', 'x'] : List Char).map Char.toLower)
              (splitWs ((['a', 'b', ' ', 'x'] : List Char).map Char.toLower)) t)).sum
        + (if ([['a', 'b']] : List (List Char)) ≠ [] ∧ (∀ t ∈ ([['a', 'b']] : List (List Char)),
              termMatched ((['a', 'b'] : List Char).map Char.toLower)
                ((['a', 'b', ' ', 'x'] : List Char).map Char.toLower)
                (splitWs ((['a', 'b', ' ', 'x'] : List Char).map Char.toLower)) t = true)
           then 30 else 0) ∧
    (scoreFactor [['a', 'b']] ⟨['a', 'b'], some ['a', 'b', ' ', 'x']⟩).2
      = [['a', 'b']].any (termMatched ((['a', 'b'] : List Char).map Char.toLower)
          ((['a', 'b', ' ', 'x'] : List Char).map Char.toLower)
          (splitWs ((['a', 'b', ' ', 'x'] : List Char).map Char.toLower))) :=
  scoreFactor_eq_components [['a', 'b']] ⟨['a', 'b'], some ['a', 'b', ' ', 'x']⟩
    ['a', 'b', ' ', 'x'] rfl (by simp)

/-- C9: for any query that is non-blank after trimming, an entry whose name
is absent or empty is scored 0 and marked non-matching before any rule runs,
and is therefore never in the filtered results — even if a query term
exactly equals the entry's code. -/
theorem filteredEmissionFactors_excludes_nameless (searchQuery : List Char)
    (factors : List EFactor) (factor : EFactor)
    (hq : (trimWs searchQuery).isEmpty = false)
    (hf : factor.name = none ∨ factor.name = some []) :
    scoreFactor (queryTerms searchQuery) factor = (0, false) ∧
    factor ∉ filteredEmissionFactors searchQuery factors := by
  have hscore : ∀ terms, scoreFactor terms factor = (0, false) := by
    intro terms
    rcases hf with h | h <;> simp [scoreFactor, h]
  refine ⟨hscore _, ?_⟩
  intro hmem
  rw [filteredEmissionFactors] at hmem
  rw [if_neg (by simp [hq])] at hmem
  obtain ⟨r, hr, hrf⟩ := List.mem_map.mp hmem
  rw [List.mem_mergeSort] at hr
  have hr2 := List.mem_filter.mp hr
  obtain ⟨g, _, hg⟩ := List.mem_map.mp hr2.1
  have hflag := hr2.2
  rw [← hg] at hrf hflag
  simp only at hrf hflag
  rw [hrf] at hflag
  rw [hscore (queryTerms searchQuery)] at hflag
  cases hflag

theorem filteredEmissionFactors_excludes_nameless_witness :
    scoreFactor (queryTerms ['5', '6', '1']) ⟨['5', '6', '1'], none⟩ = (0, false) ∧
    (⟨['5', '6', '1'], none⟩ : EFactor)
      ∉ filteredEmissionFactors ['5', '6', '1'] [⟨['5', '6', '1'], none⟩] :=
  filteredEmissionFactors_excludes_nameless ['5', '6', '1']
    [⟨['5', '6', '1'], none⟩] ⟨['5', '6', '1'], none⟩ (by decide) (Or.inl rfl)
